import Mathlib

/- Verification of the core logic modules of the IELTS writing-practice web
   application: the XOR/base64 credential obfuscation (src/utils/encryption.ts),
   the daily quota governor (quotaService), the two-tier result cache
   (cacheService), the request/response normalizer and service-routing adapter
   (geminiProxyService / geminiServiceAdapter), the user statistics aggregation
   (src/services/userStatsService.ts) and the client-side rate limiter
   (rateLimiter). JavaScript strings are modelled as lists of UTF-16 code
   units, JavaScript numbers as exact integers or rationals, the browser
   storages as association lists, and the Firestore document store as a
   function from user id to an optional document. -/

namespace IeltsApp

/-! ## JavaScript numeric and string primitives -/

/-- A JavaScript string, as its list of UTF-16 code units (charCodeAt values). -/
abbrev JSStr := List Nat

/-- JS ToInt32: normalize an integer to the signed 32-bit range. -/
def int32 (x : Int) : Int := (x + 2 ^ 31) % 2 ^ 32 - 2 ^ 31

/-- Unsigned 32-bit view of an integer (two's complement bit pattern). -/
def toU32 (x : Int) : Nat := (x % 2 ^ 32).toNat

/-- JS bitwise xor: both operands pass through ToInt32, the result is Int32. -/
def jsXor (a b : Int) : Int :=
  let r := Nat.xor (toU32 a) (toU32 b)
  if r < 2 ^ 31 then (r : Int) else (r : Int) - 2 ^ 32

/-- JS String.fromCharCode applies ToUint16 to its argument. -/
def toU16 (x : Int) : Nat := (x % 2 ^ 16).toNat

/-- One step of the key hash in encryptData / decryptData:
    hash = ((hash << 5) - hash) + charCode. The shift operates on Int32
    (wrapping); the subtraction and addition are exact. -/
def hashStep (h : Int) (c : Nat) : Int := int32 (int32 h * 32) - h + c

/-- Array.from(key).reduce((hash, char) => ((hash << 5) - hash) + code, 0). -/
def jsHash (key : JSStr) : Int := key.foldl hashStep 0

/-! ## Base64 (window.btoa / window.atob) -/

/-- Code of the base64 alphabet character for a sextet. -/
def b64char (s : Nat) : Nat :=
  if s < 26 then 65 + s
  else if s < 52 then 71 + s
  else if s < 62 then s - 4
  else if s = 62 then 43
  else 47

/-- Index of a character code in the base64 alphabet, none if it is not in it. -/
def b64index (c : Nat) : Option Nat :=
  if 65 ≤ c ∧ c ≤ 90 then some (c - 65)
  else if 97 ≤ c ∧ c ≤ 122 then some (c - 71)
  else if 48 ≤ c ∧ c ≤ 57 then some (c + 4)
  else if c = 43 then some 62
  else if c = 47 then some 63
  else none

/-- Split a byte list into base64 sextets, three bytes giving four sextets. -/
def bytesToSex : List Nat → List Nat
  | [] => []
  | [b0] => [b0 / 4, b0 % 4 * 16]
  | [b0, b1] => [b0 / 4, b0 % 4 * 16 + b1 / 16, b1 % 16 * 4]
  | b0 :: b1 :: b2 :: rest =>
      b0 / 4 :: (b0 % 4 * 16 + b1 / 16) :: (b1 % 16 * 4 + b2 / 64) :: b2 % 64
        :: bytesToSex rest

/-- The padding appended by btoa, by input length modulo 3 (61 is the code
    of the equals sign). -/
def padFor (n : Nat) : List Nat :=
  match n % 3 with
  | 1 => [61, 61]
  | 2 => [61]
  | _ => []

/-- window.btoa on a list of byte values.  (btoa throws on a code unit above
    255; callers model that by testing the input before applying btoa.) -/
def btoa (bytes : List Nat) : List Nat :=
  (bytesToSex bytes).map b64char ++ padFor bytes.length

/-- ASCII whitespace, removed by the forgiving-base64 decode of atob. -/
def isB64Ws (c : Nat) : Bool := c = 9 || c = 10 || c = 12 || c = 13 || c = 32

/-- Remove one or two trailing padding characters when the length is a
    multiple of four (forgiving-base64). -/
def stripPad (d : List Nat) : List Nat :=
  if d.length % 4 = 0 then
    if d.getLast? = some 61 then
      if d.dropLast.getLast? = some 61 then d.dropLast.dropLast
      else d.dropLast
    else d
  else d

/-- Reassemble bytes from sextets; a trailing pair gives one byte and a
    trailing triple gives two (the discarded low bits of forgiving-base64). -/
def sexToBytes : List Nat → List Nat
  | [] => []
  | [_] => []
  | [s0, s1] => [s0 * 4 + s1 / 16]
  | [s0, s1, s2] => [s0 * 4 + s1 / 16, s1 % 16 * 16 + s2 / 4]
  | s0 :: s1 :: s2 :: s3 :: rest =>
      (s0 * 4 + s1 / 16) :: (s1 % 16 * 16 + s2 / 4) :: (s2 % 4 * 64 + s3)
        :: sexToBytes rest

/-- window.atob (forgiving-base64): strip whitespace, strip padding, reject a
    length of 1 mod 4 or a character outside the alphabet, decode.  none
    models the thrown InvalidCharacterError. -/
def atob (input : List Nat) : Option (List Nat) :=
  let d := input.filter (fun c => !isB64Ws c)
  let d := stripPad d
  if d.length % 4 = 1 then none
  else
    match d.mapM b64index with
    | none => none
    | some sx => some (sexToBytes sx)

/-! ## src/utils/encryption.ts -/

/-- The XOR pass shared by encryptData and decryptData, carrying the running
    character index: each code unit is xored with (keyHash + i) % 256 (the JS
    remainder keeps the sign of the dividend) and passed through
    String.fromCharCode. -/
def xorFrom (h : Int) (i : Nat) : JSStr → JSStr
  | [] => []
  | c :: cs => toU16 (jsXor c ((h + i).tmod 256)) :: xorFrom h (i + 1) cs

/-- encryptData: xor the data with the hashed key and base64-encode it.
    When some xored code unit exceeds 255, btoa throws and the catch returns
    the plaintext unchanged. -/
def encryptData (data key : JSStr) : JSStr :=
  let x := xorFrom (jsHash key) 0 data
  if x.all (· < 256) then btoa x else data

/-- decryptData: base64-decode and xor with the hashed key.  When atob throws,
    the catch returns the input unchanged; the xor pass itself cannot throw. -/
def decryptData (enc key : JSStr) : JSStr :=
  match atob enc with
  | none => enc
  | some decoded => xorFrom (jsHash key) 0 decoded

/-! ## Domain types (src/types.ts), restricted to the fields the core logic
    reads.  JS numbers are modelled as exact rationals. -/

/-- FeedbackResult: the graded evaluation attached to a submission. -/
structure FeedbackResult where
  bandScore : ℚ
  feedback : String
  strengths : List String
  improvements : List String
deriving DecidableEq

/-- HistoryEntry: one attempt record (presentation-only fields omitted). -/
structure HistoryEntry where
  taskType : String
  prompt : String
  userText : String
  feedback : Option FeedbackResult
  timestamp : String
deriving DecidableEq

/-! ## Browser storage model

localStorage / sessionStorage hold strings under string keys.  Each module
serializes its own value shapes (JSON.stringify, String(n), or the raw
credential string); serialization round-trips, so the stored payloads are
modelled as a sum of the shapes the modules write. -/

/-- A value held in a storage slot. -/
inductive StoreVal where
  /-- a raw string (the obfuscated credential) -/
  | str (v : JSStr)
  /-- a decimal numeral, String(n) (the cache version counter) -/
  | natVal (n : Nat)
  /-- JSON.stringify of a CacheData payload for the history list -/
  | histList (data : List (String × HistoryEntry)) (version : Nat) (userId : String)
  /-- JSON.stringify of a CacheData payload for one history detail record -/
  | detail (d : HistoryEntry)
deriving DecidableEq

/-- A browser storage: an association list from key to value, first match
    wins. -/
abbrev Storage := List (String × StoreVal)

/-- localStorage.getItem. -/
def getItem (st : Storage) (k : String) : Option StoreVal :=
  (st.find? (fun kv => kv.1 == k)).map (·.2)

/-- localStorage.setItem (overwrite). -/
def setItem (st : Storage) (k : String) (v : StoreVal) : Storage :=
  (k, v) :: st.filter (fun kv => !(kv.1 == k))

/-- localStorage.removeItem. -/
def removeItem (st : Storage) (k : String) : Storage :=
  st.filter (fun kv => !(kv.1 == k))

/-- String.prototype.startsWith, via the code-unit lists. -/
def startsW (p s : String) : Bool := p.data.isPrefixOf s.data

/-! ## encryption.ts storage helpers (secureSetItem / secureGetItem) -/

/-- The regular expression test of secureGetItem: one or more characters,
    all from the base64 alphabet or padding. -/
def base64Like (v : JSStr) : Bool :=
  !v.isEmpty && v.all fun c =>
    (65 ≤ c && c ≤ 90) || (97 ≤ c && c ≤ 122) || (48 ≤ c && c ≤ 57) ||
      c = 43 || c = 47 || c = 61

/-- secureSetItem: store the encrypted value (the inner try never throws in
    the model, so the unencrypted fallback path is unreachable). -/
def secureSetItem (st : Storage) (k : String) (value : JSStr) (userId : JSStr) :
    Storage :=
  setItem st k (.str (encryptData value userId))

/-- secureGetItem: read, return null for an absent or empty slot, decrypt
    when the value looks base64-encoded, otherwise return it as stored. -/
def secureGetItem (st : Storage) (k : String) (userId : JSStr) : Option JSStr :=
  match getItem st k with
  | some (.str v) =>
      if v.isEmpty then none
      else if base64Like v then some (decryptData v userId)
      else some v
  | _ => none

/-! ## quotaService (src/services/quotaService.ts)

The Firestore users collection is a function from user id to an optional
document; only the two quota fields are modelled (the informational email /
displayName / timestamp fields are never read by the logic under claim).
getJakartaDate is an input: the calendar date in the fixed Asia/Jakarta
timezone, identical for every caller whatever its local clock.  Fallible
Firestore reads and writes take an explicit success flag; a transaction is a
single atomic state transformer, because Firestore serializes conflicting
transactions. -/

/-- The users/{userId} document, restricted to the quota fields. -/
structure UserDoc where
  quotaUsed : Nat
  lastResetDate : Option String
deriving DecidableEq

/-- MAX_DEFAULT_QUOTA. -/
def maxDefaultQuota : Nat := 3

/-- The quota governor state: the shared store, the per-tab in-memory cache
    and the browser localStorage (for the per-user credential). -/
structure QuotaState where
  users : String → Option UserDoc
  quotaCache : Option (String × Nat)
  localStore : Storage

/-- shouldResetQuota: reset when no date is recorded or the recorded date is
    not today in the reference timezone. -/
def shouldResetQuota (lastResetDate : Option String) (today : String) : Bool :=
  match lastResetDate with
  | none => true
  | some d => today != d

/-- The key of the per-user credential slot. -/
def apiKeyKey (userId : String) : String := "GEMINI_API_KEY_" ++ userId

/-- getUserApiKey: decrypt the per-user credential from localStorage. -/
def getUserApiKey (st : Storage) (userId : String) : Option JSStr :=
  secureGetItem st (apiKeyKey userId) (userId.data.map Char.toNat)

/-- setUserApiKey: store the per-user credential encrypted. -/
def setUserApiKey (st : Storage) (userId : String) (apiKey : JSStr) : Storage :=
  secureSetItem st (apiKeyKey userId) apiKey (userId.data.map Char.toNat)

/-- isUsingCustomApiKey: truthiness of the retrieved credential. -/
def isUsingCustomApiKey (st : Storage) (userId : String) : Bool :=
  match getUserApiKey st userId with
  | some v => !v.isEmpty
  | none => false

/-- Whether the in-memory cache holds an entry for this user. -/
def cacheHit (s : QuotaState) (userId : String) : Bool :=
  match s.quotaCache with
  | some (v, _) => v == userId
  | none => false

/-- The value the catch handler of getQuotaUsed falls back to:
    quotaCache?.used || 0. -/
def cachedOrZero (s : QuotaState) : Nat :=
  match s.quotaCache with
  | some (_, n) => n
  | none => 0

/-- Point update of the users collection. -/
def updUsers (f : String → Option UserDoc) (u : String) (d : UserDoc) :
    String → Option UserDoc :=
  fun x => if x = u then some d else f x

/-- getQuotaUsed: prefer the matching in-memory cache; otherwise read the
    store, apply the same-day reset, refresh the cache and return the value.
    getOk / updOk tell whether the Firestore read / write succeeds; every
    failure is caught and degrades to the cached value or zero. -/
def getQuotaUsed (today : String) (getOk updOk : Bool) (userId : String)
    (s : QuotaState) : Nat × QuotaState :=
  if cacheHit s userId then
    match s.quotaCache with
    | some (_, n) => (n, s)
    | none => (0, s)
  else if !getOk then (cachedOrZero s, s)
  else
    match s.users userId with
    | some data =>
        if shouldResetQuota data.lastResetDate today then
          if updOk then
            (0, { s with users := updUsers s.users userId
                            { data with quotaUsed := 0, lastResetDate := some today },
                         quotaCache := some (userId, 0) })
          else (cachedOrZero s, s)
        else
          (data.quotaUsed, { s with quotaCache := some (userId, data.quotaUsed) })
    | none => (0, s)

/-- incrementQuota: one atomic read-modify-write transaction.  On commit it
    creates the document at 1, or resets to 1 on a new day, or increments by
    exactly one; on transaction failure it throws the user-facing error and
    the store is unchanged. -/
def incrementQuota (today : String) (txOk : Bool) (userId : String)
    (s : QuotaState) : Except String Unit × QuotaState :=
  if txOk then
    match s.users userId with
    | none =>
        (.ok (), { s with users := updUsers s.users userId ⟨1, some today⟩,
                          quotaCache := some (userId, 1) })
    | some data =>
        if shouldResetQuota data.lastResetDate today then
          (.ok (), { s with
            users := updUsers s.users userId
              { data with quotaUsed := 1, lastResetDate := some today },
            quotaCache := some (userId, 1) })
        else
          (.ok (), { s with
            users := updUsers s.users userId
              { data with quotaUsed := data.quotaUsed + 1 },
            quotaCache := some (userId, data.quotaUsed + 1) })
  else (.error "Failed to update quota. Please try again.", s)

/-- getRemainingQuota = MAX_DEFAULT_QUOTA - getQuotaUsed (a JS number, so it
    may be negative). -/
def getRemainingQuota (today : String) (getOk updOk : Bool) (userId : String)
    (s : QuotaState) : Int × QuotaState :=
  let r := getQuotaUsed today getOk updOk userId s
  ((maxDefaultQuota : Int) - r.1, r.2)

/-- hasQuotaRemaining: remaining > 0. -/
def hasQuotaRemaining (today : String) (getOk updOk : Bool) (userId : String)
    (s : QuotaState) : Bool × QuotaState :=
  let r := getRemainingQuota today getOk updOk userId s
  (decide (0 < r.1), r.2)

/-- canMakeRequest: unconditionally true with a custom credential, otherwise
    the quota check. -/
def canMakeRequest (today : String) (getOk updOk : Bool) (userId : String)
    (s : QuotaState) : Bool × QuotaState :=
  if isUsingCustomApiKey s.localStore userId then (true, s)
  else hasQuotaRemaining today getOk updOk userId s

/-! ## cacheService (src/services/cacheService.ts)

The durable list tier lives in localStorage, the detail tier in
sessionStorage; both are Storage values here.  Keys follow the source:
CACHE_PREFIX = "ielts\x5fcache\x5f", history list under
getCacheKey(userId, "history"), version counter under "version\x5f" + userId,
details under "history\x5fdetail\x5f" + historyId. -/

/-- CACHE_PREFIX. -/
def cacheNs : String := "ielts_cache_"

/-- MAX_CACHED_ITEMS. -/
def maxCachedItems : Nat := 10

/-- getCacheKey(userId, "history"). -/
def histKey (userId : String) : String := cacheNs ++ "history_" ++ userId

/-- getVersionKey(userId). -/
def versionKey (userId : String) : String := cacheNs ++ "version_" ++ userId

/-- The sessionStorage key of one detail record. -/
def detailKey (historyId : String) : String :=
  cacheNs ++ "history_detail_" ++ historyId

/-- getCurrentVersion: parse the stored counter, defaulting to 1.  Only
    incrementVersion writes this slot, always with a numeral. -/
def getCurrentVersion (ls : Storage) (userId : String) : Nat :=
  match getItem ls (versionKey userId) with
  | some (.natVal n) => n
  | _ => 1

/-- incrementVersion: bump the per-user counter by one. -/
def incrementVersion (ls : Storage) (userId : String) : Storage :=
  setItem ls (versionKey userId) (.natVal (getCurrentVersion ls userId + 1))

/-- getCachedHistory: return the cached list only when the owner and the
    version both match; otherwise purge the entry and report a miss (none).
    Returns the possibly-updated localStorage alongside. -/
def getCachedHistory (ls : Storage) (userId : String) :
    Option (List (String × HistoryEntry)) × Storage :=
  match getItem ls (histKey userId) with
  | some (.histList data version owner) =>
      if owner ≠ userId then (none, removeItem ls (histKey userId))
      else if version ≠ getCurrentVersion ls userId then
        (none, removeItem ls (histKey userId))
      else (some data, ls)
  | some _ => (none, ls)  -- unparseable slot: JSON.parse throws, catch gives null
  | none => (none, ls)

/-- setCachedHistory: store the first MAX_CACHED_ITEMS items tagged with the
    current version and the owner. -/
def setCachedHistory (ls : Storage) (userId : String)
    (history : List (String × HistoryEntry)) : Storage :=
  setItem ls (histKey userId)
    (.histList (history.take maxCachedItems) (getCurrentVersion ls userId) userId)

/-- invalidateHistoryCache: advance the version counter; the stale payload is
    purged lazily on the next get. -/
def invalidateHistoryCache (ls : Storage) (userId : String) : Storage :=
  incrementVersion ls userId

/-- getCachedHistoryDetail: keyed purely by record id, valid for the whole
    session, no owner or version check. -/
def getCachedHistoryDetail (ss : Storage) (historyId : String) :
    Option HistoryEntry :=
  match getItem ss (detailKey historyId) with
  | some (.detail d) => some d
  | _ => none

/-- setCachedHistoryDetail. -/
def setCachedHistoryDetail (ss : Storage) (historyId : String)
    (d : HistoryEntry) : Storage :=
  setItem ss (detailKey historyId) (.detail d)

/-- clearAllCache: remove every key under CACHE_PREFIX from both tiers. -/
def clearAllCache (ls ss : Storage) : Storage × Storage :=
  (ls.filter (fun kv => !startsW cacheNs kv.1),
   ss.filter (fun kv => !startsW cacheNs kv.1))

/-! ## Grammar-check response normalization (geminiProxyService.checkGrammar)

The transport hands back a text payload; JSON.parse turns it into an untyped
value.  The normalizer accepts a bare array, or an object whose segments
field holds an array, and degrades to an empty segment list on every other
shape — the enclosing try/catch turns any thrown error (unparseable payload,
property access on null) into the same empty result. -/

/-- An untyped JSON value. -/
inductive Json where
  | null
  | bool (b : Bool)
  | num (q : ℚ)
  | str (s : String)
  | arr (elems : List Json)
  | obj (fields : List (String × Json))

/-- Object field lookup; JSON.parse keeps the last duplicate key. -/
def lookupField (fields : List (String × Json)) (k : String) : Option Json :=
  fields.foldl (fun acc kv => if kv.1 = k then some kv.2 else acc) none

/-- The grammar-check payload as it reaches the normalizer. -/
inductive GrammarRaw where
  /-- missing or empty response text -/
  | missing
  /-- a response text JSON.parse throws on -/
  | unparseable
  /-- a parsed JSON value -/
  | parsed (j : Json)

/-- The normalized result: a CorrectionResponse over untyped segments (the
    source casts the parsed elements without validating them). -/
structure CorrectionResponseJ where
  segments : List Json
deriving Inhabited

/-- checkGrammar, from the parse step on.  A bare array is taken as the
    segment list; an object with an array under segments is taken as the
    wrapped response (a JS array is always truthy, so the truthiness test
    never rejects one); anything else — including null, whose property access
    throws into the catch — gives the empty segment list. -/
def checkGrammarNorm : GrammarRaw → CorrectionResponseJ
  | .missing => ⟨[]⟩
  | .unparseable => ⟨[]⟩
  | .parsed (.arr xs) => ⟨xs⟩
  | .parsed (.obj fields) =>
      match lookupField fields "segments" with
      | some (.arr ys) => ⟨ys⟩
      | _ => ⟨[]⟩
  | .parsed _ => ⟨[]⟩

/-! ## geminiServiceAdapter (getService) -/

/-- The two interchangeable transports. -/
inductive Service where
  | direct
  | proxied
deriving DecidableEq

/-- The state getService consults: the authenticated user and localStorage. -/
structure RouteState where
  currentUser : Option String
  localStore : Storage

/-- getService: re-evaluated on every call; no user or no usable stored
    credential routes to the proxy, a usable credential routes direct. -/
def getService (s : RouteState) : Service :=
  match s.currentUser with
  | none => .proxied
  | some uid => if isUsingCustomApiKey s.localStore uid then .direct else .proxied

/-! ## userStatsService (src/services/userStatsService.ts)

Band scores are exact rationals.  The two wall-clock fields (lastAttemptDate,
lastUpdated) are write-only timestamps and are omitted. -/

/-- The user_stats/{userId} document. -/
structure UserStats where
  totalAttempts : Nat
  avgBandScore : ℚ
  task1Attempts : Nat
  task2Attempts : Nat
  avgTask1Score : ℚ
  avgTask2Score : ℚ
  progressTrend : List ℚ
deriving DecidableEq

/-- The zeroed record written by initializeUserStats. -/
def initialUserStats : UserStats := ⟨0, 0, 0, 0, 0, 0, []⟩

/-- Array.prototype.slice(-10): the last ten entries. -/
def lastTen (l : List ℚ) : List ℚ := l.drop (l.length - 10)

/-- updateUserStats, as the pure fold step on the stored record: bump the
    counts, fold the new score into the running averages, append to the
    trailing trend. -/
def updateUserStats (taskType : String) (fb : FeedbackResult)
    (st : UserStats) : UserStats :=
  let bandScore := fb.bandScore
  let newTotalAttempts := st.totalAttempts + 1
  let task1 := taskType = "Task 1"
  let newTask1Attempts := if task1 then st.task1Attempts + 1 else st.task1Attempts
  let newTask2Attempts := if task1 then st.task2Attempts else st.task2Attempts + 1
  let newAvgTask1Score :=
    if task1 then
      (st.avgTask1Score * st.task1Attempts + bandScore) / (st.task1Attempts + 1 : ℚ)
    else st.avgTask1Score
  let newAvgTask2Score :=
    if task1 then st.avgTask2Score
    else (st.avgTask2Score * st.task2Attempts + bandScore) / (st.task2Attempts + 1 : ℚ)
  let newAvgBandScore :=
    (st.avgBandScore * st.totalAttempts + bandScore) / (newTotalAttempts : ℚ)
  { totalAttempts := newTotalAttempts
    avgBandScore := newAvgBandScore
    task1Attempts := newTask1Attempts
    task2Attempts := newTask2Attempts
    avgTask1Score := newAvgTask1Score
    avgTask2Score := newAvgTask2Score
    progressTrend := lastTen (st.progressTrend ++ [bandScore]) }

/-- The accumulator of recalculateUserStats. -/
structure RecalcAcc where
  totalAttempts : Nat
  totalScore : ℚ
  task1Attempts : Nat
  task2Attempts : Nat
  task1TotalScore : ℚ
  task2TotalScore : ℚ
  progressTrend : List ℚ

/-- One forEach step of recalculateUserStats: ungraded entries are skipped. -/
def recalcStep (acc : RecalcAcc) (e : HistoryEntry) : RecalcAcc :=
  match e.feedback with
  | none => acc
  | some fb =>
      { totalAttempts := acc.totalAttempts + 1
        totalScore := acc.totalScore + fb.bandScore
        task1Attempts :=
          if e.taskType = "Task 1" then acc.task1Attempts + 1 else acc.task1Attempts
        task2Attempts :=
          if e.taskType = "Task 1" then acc.task2Attempts else acc.task2Attempts + 1
        task1TotalScore :=
          if e.taskType = "Task 1" then acc.task1TotalScore + fb.bandScore
          else acc.task1TotalScore
        task2TotalScore :=
          if e.taskType = "Task 1" then acc.task2TotalScore
          else acc.task2TotalScore + fb.bandScore
        progressTrend := acc.progressTrend ++ [fb.bandScore] }

/-- recalculateUserStats: full rebuild of the stats record from the complete
    history. -/
def recalcUserStats (historyData : List HistoryEntry) : UserStats :=
  let a := historyData.foldl recalcStep ⟨0, 0, 0, 0, 0, 0, []⟩
  { totalAttempts := a.totalAttempts
    avgBandScore :=
      if 0 < a.totalAttempts then a.totalScore / (a.totalAttempts : ℚ) else 0
    task1Attempts := a.task1Attempts
    task2Attempts := a.task2Attempts
    avgTask1Score :=
      if 0 < a.task1Attempts then a.task1TotalScore / (a.task1Attempts : ℚ) else 0
    avgTask2Score :=
      if 0 < a.task2Attempts then a.task2TotalScore / (a.task2Attempts : ℚ) else 0
    progressTrend := lastTen a.progressTrend }

/-- Folding a history through updateUserStats, one graded entry at a time
    (updateUserStats is only ever invoked with a present FeedbackResult). -/
def foldStats (st : UserStats) (entries : List HistoryEntry) : UserStats :=
  entries.foldl
    (fun acc e =>
      match e.feedback with
      | some fb => updateUserStats e.taskType fb acc
      | none => acc)
    st

/-! ## rateLimiter (src/utils/rateLimiter.ts) -/

/-- The sliding-window rate limiter: a window in milliseconds, a maximum
    request count, and per-key lists of admitted timestamps. -/
structure RateLimiter where
  windowMs : Nat
  maxRequests : Nat
  requests : String → List Nat

/-- isAllowed(key) at the current clock reading: drop entries that left the
    window, reject without recording when the window is full, otherwise
    record and admit. -/
def RateLimiter.isAllowed (rl : RateLimiter) (key : String) (now : Nat) :
    Bool × RateLimiter :=
  let userRequests := rl.requests key
  let recent := userRequests.filter (fun t => now - t < rl.windowMs)
  if rl.maxRequests ≤ recent.length then (false, rl)
  else
    (true, { rl with requests := fun k =>
        if k = key then recent ++ [now] else rl.requests k })

/-- aiGenerationLimiter = new RateLimiter(60000, 10), with the fresh empty
    request map. -/
def aiGenerationLimiter : RateLimiter := ⟨60000, 10, fun _ => []⟩

/-- Run a sequence of isAllowed calls for one key at the given clock
    readings, collecting the verdicts. -/
def runCalls (rl : RateLimiter) (key : String) : List Nat → List Bool
  | [] => []
  | t :: ts =>
      let r := rl.isAllowed key t
      r.1 :: runCalls r.2 key ts

/-- The number of timestamps of l inside the trailing window ending at t. -/
def countW (w t : Nat) (l : List Nat) : Nat :=
  (l.filter (fun x => t - x < w)).length

/-- The reference sliding-window policy: admit a call iff fewer than max of
    the previously admitted calls lie in the trailing window, and record
    exactly the admitted calls. -/
def specRun (w maxR : Nat) (admitted : List Nat) : List Nat → List Bool
  | [] => []
  | t :: ts =>
      if maxR ≤ countW w t admitted then false :: specRun w maxR admitted ts
      else true :: specRun w maxR (admitted ++ [t]) ts

/-- The admitted-timestamp list of the reference policy after a trace. -/
def specAcc (w maxR : Nat) (admitted : List Nat) : List Nat → List Nat
  | [] => admitted
  | t :: ts =>
      if maxR ≤ countW w t admitted then specAcc w maxR admitted ts
      else specAcc w maxR (admitted ++ [t]) ts

/-! ## Concrete instances and specification-side definitions used by the
    claims -/

/-- A sample history entry for concrete instances. -/
def sampleEntry : HistoryEntry := ⟨"Task 1", "p", "t", none, "ts"⟩

/-- C2 counterexample input: an eleven-item history list. -/
def items11 : List (String × HistoryEntry) :=
  (List.range 11).map (fun i => (toString i, sampleEntry))

/-- The concrete starting state of the C1 counterexample: quotaUsed is
    cap - 1 = 2, the reset date is today, no credential, no cached count. -/
def c1State : QuotaState :=
  { users := fun x => if x = "u1" then some ⟨2, some "2026-10-12"⟩ else none,
    quotaCache := none, localStore := [] }

/-- The concrete state of the C3 counterexample: the store says yesterday,
    but the in-memory cache already holds an entry for the user. -/
def c3State : QuotaState :=
  { users := fun x => if x = "u1" then some ⟨3, some "2026-10-11"⟩ else none,
    quotaCache := some ("u1", 3), localStore := [] }

/-- The concrete state of the C3 witness: the store says yesterday and the
    in-memory cache is empty. -/
def c3WitState : QuotaState :=
  { users := fun x => if x = "u1" then some ⟨3, some "2026-10-11"⟩ else none,
    quotaCache := none, localStore := [] }

/-- The concrete state of the C7 witness: a cache hit for the requested
    user. -/
def c7State : QuotaState :=
  { users := fun _ => none, quotaCache := some ("u1", 2), localStore := [] }

/-- The (taskType, bandScore) pairs of the graded entries of a history. -/
def gradedPairs (l : List HistoryEntry) : List (String × ℚ) :=
  l.filterMap (fun e => e.feedback.map (fun fb => (e.taskType, fb.bandScore)))

/-- Total score of a pair list. -/
def sumScores (g : List (String × ℚ)) : ℚ := (g.map (·.2)).sum

/-- The Task 1 pairs. -/
def t1of (g : List (String × ℚ)) : List (String × ℚ) :=
  g.filter (fun p => decide (p.1 = "Task 1"))

/-- The non-Task-1 pairs. -/
def t2of (g : List (String × ℚ)) : List (String × ℚ) :=
  g.filter (fun p => !decide (p.1 = "Task 1"))

/-- Agreement on the fields the claim compares: attempt counts and the three
    running averages (the trailing trend list is inherently order-dependent
    and not part of the claim). -/
def StatsAgree (a b : UserStats) : Prop :=
  a.totalAttempts = b.totalAttempts ∧ a.avgBandScore = b.avgBandScore ∧
  a.task1Attempts = b.task1Attempts ∧ a.task2Attempts = b.task2Attempts ∧
  a.avgTask1Score = b.avgTask1Score ∧ a.avgTask2Score = b.avgTask2Score

/-- Two concrete graded entries for the C6 witness. -/
def entryA : HistoryEntry :=
  ⟨"Task 1", "p1", "t1", some ⟨13 / 2, "f", [], []⟩, "ts1"⟩

def entryB : HistoryEntry :=
  ⟨"TASK_2", "p2", "t2", some ⟨7, "f", [], []⟩, "ts2"⟩

/-- The concrete key of the C9 counterexample: the code units of a key
    whose JS string hash is negative (-792716256). -/
def c9Key : JSStr := [104, 101, 108, 108, 111, 49, 50, 51]

/-- The concrete plaintext of the C9 counterexample (code units all below
    256, and a valid base64 string, so atob succeeds on it). -/
def c9Data : JSStr := [97, 98, 99, 100]

/-- The concrete key of the C9 witness: seven z characters, whose JS string
    hash is the non-negative 215481018. -/
def c9zKey : JSStr := [122, 122, 122, 122, 122, 122, 122]

/-- The concrete routing state of the C5 witness. -/
def c5State : RouteState := { currentUser := some "u1", localStore := [] }

/-! ## Storage laws -/

theorem getItem_setItem_self (st : Storage) (k : String) (v : StoreVal) :
    getItem (setItem st k v) k = some v := by
  unfold getItem setItem
  rw [List.find?_cons_of_pos _ (by simp)]
  rfl

theorem find?_key_filter (st : Storage) (k k' : String) (h : k' ≠ k) :
    (st.filter (fun kv => !(kv.1 == k))).find? (fun kv => kv.1 == k') =
      st.find? (fun kv => kv.1 == k') := by
  induction st with
  | nil => rfl
  | cons hd tl ih =>
      by_cases hk : hd.1 = k
      · rw [List.filter_cons_of_neg (by simp [hk]), ih,
          List.find?_cons_of_neg _ (by simp [hk, h.symm])]
      · rw [List.filter_cons_of_pos (by simp [hk])]
        by_cases hk' : hd.1 = k'
        · rw [List.find?_cons_of_pos _ (by simp [hk']),
            List.find?_cons_of_pos _ (by simp [hk'])]
        · rw [List.find?_cons_of_neg _ (by simp [hk']),
            List.find?_cons_of_neg _ (by simp [hk']), ih]

theorem getItem_setItem_ne (st : Storage) (k k' : String) (v : StoreVal)
    (h : k' ≠ k) : getItem (setItem st k v) k' = getItem st k' := by
  unfold getItem setItem
  rw [List.find?_cons_of_neg _ (by simp [h.symm]), find?_key_filter st k k' h]

theorem getItem_clear (st : Storage) (k : String) (h : startsW cacheNs k = true) :
    getItem (st.filter (fun kv => !startsW cacheNs kv.1)) k = none := by
  induction st with
  | nil => rfl
  | cons hd tl ih =>
      by_cases hp : startsW cacheNs hd.1 = true
      · rw [List.filter_cons_of_neg (by simp [hp]), ih]
      · rw [List.filter_cons_of_pos (by simp [hp])]
        unfold getItem at ih ⊢
        rw [List.find?_cons_of_neg _ (by
          simp only [beq_iff_eq]
          intro hk
          exact hp (hk ▸ h))]
        exact ih

theorem startsW_build (a b : String) : startsW cacheNs (cacheNs ++ a ++ b) = true := by
  unfold startsW
  rw [List.isPrefixOf_iff_prefix, String.data_append, String.data_append,
    List.append_assoc]
  exact List.prefix_append _ _

theorem append_ne_of_pre (p q u v : String) (hlen : p.data.length = q.data.length)
    (hne : p.data ≠ q.data) : p ++ u ≠ q ++ v := by
  intro h
  have hd : (p ++ u).data = (q ++ v).data := congrArg String.data h
  rw [String.data_append, String.data_append] at hd
  exact hne (List.append_inj hd hlen).1

theorem histKey_ne_versionKey (u v : String) : histKey u ≠ versionKey v := by
  unfold histKey versionKey cacheNs
  exact append_ne_of_pre _ _ _ _ (by decide) (by decide)

/-! ## Claim C4 -/

/-- C4: the grammar-check normalizer accepts a bare JSON array of segments
    and an object wrapping a segments array, and every other payload shape —
    missing, unparseable or otherwise — yields the empty segment list as a
    normal result (the surrounding try/catch turns every throw into the same
    empty result, so no error escapes). -/
theorem C4_grammar_normalizer (r : GrammarRaw) :
    (∀ xs, r = .parsed (.arr xs) → checkGrammarNorm r = ⟨xs⟩) ∧
    (∀ fs ys, r = .parsed (.obj fs) → lookupField fs "segments" = some (.arr ys) →
      checkGrammarNorm r = ⟨ys⟩) ∧
    ((∀ xs, r ≠ .parsed (.arr xs)) →
      (∀ fs ys, r = .parsed (.obj fs) → lookupField fs "segments" ≠ some (.arr ys)) →
      checkGrammarNorm r = ⟨[]⟩) := by
  refine ⟨?_, ?_, ?_⟩
  · intro xs h; subst h; rfl
  · intro fs ys h hseg; subst h
    simp [checkGrammarNorm, hseg]
  · intro h1 h2
    match r with
    | .missing => rfl
    | .unparseable => rfl
    | .parsed .null => rfl
    | .parsed (.bool b) => rfl
    | .parsed (.num q) => rfl
    | .parsed (.str s) => rfl
    | .parsed (.arr xs) => exact absurd rfl (h1 xs)
    | .parsed (.obj fs) =>
        cases hl : lookupField fs "segments" with
        | none => simp [checkGrammarNorm, hl]
        | some j =>
            cases j with
            | arr ys => exact absurd hl (h2 fs ys rfl)
            | null => simp [checkGrammarNorm, hl]
            | bool b => simp [checkGrammarNorm, hl]
            | num q => simp [checkGrammarNorm, hl]
            | str s => simp [checkGrammarNorm, hl]
            | obj gs => simp [checkGrammarNorm, hl]

theorem C4_grammar_normalizer_witness :
    checkGrammarNorm (.parsed (.arr [])) = ⟨[]⟩ :=
  (C4_grammar_normalizer (.parsed (.arr []))).1 [] rfl

/-! ## Claim C8 -/

/-- C8: after populating the durable list cache and the session detail cache,
    clearAllCache removes every key under the cache namespace from both
    storage tiers, and every subsequent get on either tier reports a miss. -/
theorem C8_clearAllCache (ls ss : Storage) (u iid : String)
    (items : List (String × HistoryEntry)) (d : HistoryEntry) :
    (∀ k, startsW cacheNs k = true →
      getItem (clearAllCache (setCachedHistory ls u items)
        (setCachedHistoryDetail ss iid d)).1 k = none ∧
      getItem (clearAllCache (setCachedHistory ls u items)
        (setCachedHistoryDetail ss iid d)).2 k = none) ∧
    (∀ v, (getCachedHistory (clearAllCache (setCachedHistory ls u items)
      (setCachedHistoryDetail ss iid d)).1 v).1 = none) ∧
    (∀ j, getCachedHistoryDetail (clearAllCache (setCachedHistory ls u items)
      (setCachedHistoryDetail ss iid d)).2 j = none) := by
  refine ⟨fun k hk => ⟨getItem_clear _ _ hk, getItem_clear _ _ hk⟩, ?_, ?_⟩
  · intro v
    have h1 : startsW cacheNs (histKey v) = true := startsW_build "history_" v
    simp only [getCachedHistory, clearAllCache]
    rw [getItem_clear _ _ h1]
  · intro j
    have h1 : startsW cacheNs (detailKey j) = true := startsW_build "history_detail_" j
    simp only [getCachedHistoryDetail, clearAllCache]
    rw [getItem_clear _ _ h1]

/-! ## Claim C2 -/

/-- setCachedHistory leaves the version slot alone. -/
theorem getCurrentVersion_set (ls : Storage) (u : String)
    (items : List (String × HistoryEntry)) :
    getCurrentVersion (setCachedHistory ls u items) u = getCurrentVersion ls u := by
  unfold getCurrentVersion setCachedHistory
  rw [getItem_setItem_ne _ _ _ _ (histKey_ne_versionKey u u).symm]

/-- C2 as stated is false: set stores only the first ten items, so for an
    eleven-item list the subsequent get returns the truncated list, not the
    identical one that was passed in. -/
theorem C2_counterexample :
    (getCachedHistory (setCachedHistory [] "u" items11) "u").1 =
      some (items11.take maxCachedItems) ∧
    items11.take maxCachedItems ≠ items11 := by
  refine ⟨rfl, by decide⟩

/-- C2 amended: after set(user, items) followed by invalidate(user) the next
    get(user) reports a miss; after set(user, items) with no intervening
    invalidate, get(user) returns the first MAX_CACHED_ITEMS items that were
    passed to set — the identical list whenever at most that many items were
    passed.  The version slot is assumed to hold what the module writes there
    (a numeral), i.e. the state is reachable. -/
theorem C2_list_cache_amended (ls : Storage) (u : String)
    (items : List (String × HistoryEntry))
    (hver : ∀ v, getItem ls (versionKey u) = some v → ∃ n, v = StoreVal.natVal n) :
    ((getCachedHistory (invalidateHistoryCache (setCachedHistory ls u items) u) u).1
      = none) ∧
    ((getCachedHistory (setCachedHistory ls u items) u).1 =
      some (items.take maxCachedItems)) ∧
    (items.length ≤ maxCachedItems →
      (getCachedHistory (setCachedHistory ls u items) u).1 = some items) := by
  have hgetset :
      getItem (setCachedHistory ls u items) (histKey u) =
        some (.histList (items.take maxCachedItems) (getCurrentVersion ls u) u) :=
    getItem_setItem_self ls (histKey u) _
  have hB : (getCachedHistory (setCachedHistory ls u items) u).1 =
      some (items.take maxCachedItems) := by
    unfold getCachedHistory
    rw [hgetset, getCurrentVersion_set]
    simp
  refine ⟨?_, hB, fun hlen => by rw [hB, List.take_of_length_le hlen]⟩
  have hsetv : ∀ (st : Storage) (n : Nat),
      getCurrentVersion (setItem st (versionKey u) (.natVal n)) u = n := by
    intro st n
    unfold getCurrentVersion
    rw [getItem_setItem_self]
  unfold getCachedHistory invalidateHistoryCache incrementVersion
  rw [getItem_setItem_ne _ _ _ _ (histKey_ne_versionKey u u), hgetset, hsetv,
    getCurrentVersion_set]
  have hne1 : getCurrentVersion ls u ≠ getCurrentVersion ls u + 1 := by omega
  simp [hne1]

theorem C2_list_cache_amended_witness :
    (getCachedHistory (setCachedHistory [] "u" [("a", sampleEntry)]) "u").1 =
      some [("a", sampleEntry)] :=
  (C2_list_cache_amended [] "u" [("a", sampleEntry)]
    (fun _ h => nomatch h)).2.2 (by decide)

/-! ## Claims C1, C3, C7 (quota governor) -/

/-- C1 as stated is false on the code: two concurrent incrementQuota calls
    are serialized by the Firestore transaction, and each applies its
    increment — the transaction body never checks the cap — so a user at
    quotaUsed = cap - 1 ends at cap + 1 = 4, not at cap = 3. -/
theorem C1_counterexample :
    (((incrementQuota "2026-10-12" true "u1"
        (incrementQuota "2026-10-12" true "u1" c1State).2).2.users "u1").map
      UserDoc.quotaUsed = some (maxDefaultQuota + 1)) ∧
    maxDefaultQuota + 1 ≠ maxDefaultQuota := by
  refine ⟨rfl, by decide⟩

/-- C1 amended: with the store serializing the two concurrent transactions,
    both commit and each increments by exactly one (no lost update), so a
    user at quotaUsed = cap - 1 with today's reset date ends at cap + 1; and
    afterwards canMakeRequest is false for that user absent a stored custom
    credential. -/
theorem C1_quota_concurrency_amended (today u : String) (s : QuotaState)
    (d : UserDoc) (hu : s.users u = some d) (hdate : d.lastResetDate = some today)
    (hused : d.quotaUsed = maxDefaultQuota - 1)
    (hkey : getItem s.localStore (apiKeyKey u) = none) :
    ((incrementQuota today true u s).1 = .ok ()) ∧
    ((incrementQuota today true u (incrementQuota today true u s).2).1 = .ok ()) ∧
    (((incrementQuota today true u
        (incrementQuota today true u s).2).2.users u).map UserDoc.quotaUsed =
      some (maxDefaultQuota + 1)) ∧
    (∀ gOk updOk, (canMakeRequest today gOk updOk u
        (incrementQuota today true u (incrementQuota today true u s).2).2).1
      = false) := by
  have hreset : shouldResetQuota d.lastResetDate today = false := by
    rw [hdate]; simp [shouldResetQuota]
  have h1 : incrementQuota today true u s =
      (.ok (), { s with
        users := updUsers s.users u { d with quotaUsed := d.quotaUsed + 1 },
        quotaCache := some (u, d.quotaUsed + 1) }) := by
    simp [incrementQuota, hu, hreset]
  have hu1 : (incrementQuota today true u s).2.users u =
      some { d with quotaUsed := d.quotaUsed + 1 } := by
    rw [h1]; simp [updUsers]
  have hreset1 : shouldResetQuota
      ({ d with quotaUsed := d.quotaUsed + 1 } : UserDoc).lastResetDate today
      = false := hreset
  have h2 : incrementQuota today true u (incrementQuota today true u s).2 =
      (.ok (), { (incrementQuota today true u s).2 with
        users := updUsers (incrementQuota today true u s).2.users u
          { d with quotaUsed := d.quotaUsed + 1 + 1 },
        quotaCache := some (u, d.quotaUsed + 1 + 1) }) := by
    conv in incrementQuota today true u (incrementQuota today true u s).2 =>
      rw [incrementQuota.eq_def]
    rw [hu1]
    simp [hreset]
  refine ⟨by rw [h1], by rw [h2], ?_, ?_⟩
  · rw [h2]
    simp [updUsers, hused, maxDefaultQuota]
  · intro gOk updOk
    have hloc : (incrementQuota today true u
        (incrementQuota today true u s).2).2.localStore = s.localStore := by
      rw [h2, h1]
    have hnokey : isUsingCustomApiKey (incrementQuota today true u
        (incrementQuota today true u s).2).2.localStore u = false := by
      rw [hloc]
      simp [isUsingCustomApiKey, getUserApiKey, secureGetItem, hkey]
    have hcache : (incrementQuota today true u
        (incrementQuota today true u s).2).2.quotaCache =
        some (u, d.quotaUsed + 1 + 1) := by rw [h2]
    rw [canMakeRequest.eq_def, hnokey]
    simp only [Bool.false_eq_true, if_false]
    unfold hasQuotaRemaining getRemainingQuota getQuotaUsed
    rw [cacheHit.eq_def, hcache]
    simp [hcache, hused, maxDefaultQuota]

theorem C1_quota_concurrency_amended_witness :
    (((incrementQuota "2026-10-12" true "u1"
        (incrementQuota "2026-10-12" true "u1" c1State).2).2.users "u1").map
      UserDoc.quotaUsed = some (maxDefaultQuota + 1)) ∧
    (canMakeRequest "2026-10-12" true true "u1"
        (incrementQuota "2026-10-12" true "u1"
          (incrementQuota "2026-10-12" true "u1" c1State).2).2).1 = false :=
  ⟨(C1_quota_concurrency_amended "2026-10-12" "u1" c1State
      ⟨2, some "2026-10-12"⟩ rfl rfl rfl rfl).2.2.1,
   (C1_quota_concurrency_amended "2026-10-12" "u1" c1State
      ⟨2, some "2026-10-12"⟩ rfl rfl rfl rfl).2.2.2 true true⟩

/-- C3 as stated is false on the code: a getQuotaUsed call made today with a
    stored lastResetDate of yesterday returns the in-memory cached count (3,
    not 0) and leaves the store unstamped whenever the cache already holds an
    entry for that user — the cache-hit path skips the reset check. -/
theorem C3_counterexample :
    (getQuotaUsed "2026-10-12" true true "u1" c3State).1 = 3 ∧
    (getQuotaUsed "2026-10-12" true true "u1" c3State).2.users "u1" =
      some ⟨3, some "2026-10-11"⟩ ∧
    (3 : Nat) ≠ 0 := by
  refine ⟨rfl, rfl, by decide⟩

/-- C3 amended: with a stored lastResetDate of yesterday (in the fixed
    reference timezone), a getQuotaUsed call made today resets the count to 0
    and stamps today provided the in-memory cache holds no entry for that
    user, and an incrementQuota call made today always resets to 1 and stamps
    today.  The reference date is an input shared by every caller, so the
    caller's local clock and timezone play no part. -/
theorem C3_daily_reset_amended (today yesterday u : String) (s : QuotaState)
    (d : UserDoc) (hu : s.users u = some d)
    (hdate : d.lastResetDate = some yesterday) (hny : yesterday ≠ today)
    (hmiss : cacheHit s u = false) :
    ((getQuotaUsed today true true u s).1 = 0 ∧
     (getQuotaUsed today true true u s).2.users u =
       some { d with quotaUsed := 0, lastResetDate := some today } ∧
     (getQuotaUsed today true true u s).2.quotaCache = some (u, 0)) ∧
    ((incrementQuota today true u s).1 = .ok () ∧
     (incrementQuota today true u s).2.users u =
       some { d with quotaUsed := 1, lastResetDate := some today } ∧
     (incrementQuota today true u s).2.quotaCache = some (u, 1)) := by
  have hreset : shouldResetQuota d.lastResetDate today = true := by
    rw [hdate]
    simp [shouldResetQuota]
    exact fun h => hny h.symm
  constructor
  · unfold getQuotaUsed
    rw [hmiss]
    simp [hu, hreset, updUsers]
  · unfold incrementQuota
    rw [hu]
    simp [hreset, updUsers]

theorem C3_daily_reset_amended_witness :
    (getQuotaUsed "2026-10-12" true true "u1" c3WitState).1 = 0 ∧
    (incrementQuota "2026-10-12" true "u1" c3WitState).1 = .ok () :=
  ⟨(C3_daily_reset_amended "2026-10-12" "2026-10-11" "u1" c3WitState
      ⟨3, some "2026-10-11"⟩ rfl rfl (by decide) rfl).1.1,
   (C3_daily_reset_amended "2026-10-12" "2026-10-11" "u1" c3WitState
      ⟨3, some "2026-10-11"⟩ rfl rfl (by decide) rfl).2.1⟩

/-! ## Claim C7 -/

/-- C7: getQuotaUsed returns a value on every path — the fallible store
    operations are taken as explicit outcomes, and every failing one lands in
    the catch — with: the cached count on an in-memory cache hit; the stored
    count (after the same-day reset check, refreshing the cache) on a cache
    miss with a successful read; zero for an absent record; and the last
    known cached value or zero on any storage failure, leaving the state
    untouched. -/
theorem C7_getQuotaUsed (today u : String) (getOk updOk : Bool) (s : QuotaState) :
    (∀ n, s.quotaCache = some (u, n) → getQuotaUsed today getOk updOk u s = (n, s)) ∧
    (cacheHit s u = false → getOk = false →
      getQuotaUsed today getOk updOk u s = (cachedOrZero s, s)) ∧
    (∀ d, cacheHit s u = false → getOk = true → s.users u = some d →
      shouldResetQuota d.lastResetDate today = true → updOk = true →
      getQuotaUsed today getOk updOk u s =
        (0, { s with
              users := updUsers s.users u
                ({ d with quotaUsed := 0, lastResetDate := some today }),
              quotaCache := some (u, 0) })) ∧
    (∀ d, cacheHit s u = false → getOk = true → s.users u = some d →
      shouldResetQuota d.lastResetDate today = true → updOk = false →
      getQuotaUsed today getOk updOk u s = (cachedOrZero s, s)) ∧
    (∀ d, cacheHit s u = false → getOk = true → s.users u = some d →
      shouldResetQuota d.lastResetDate today = false →
      getQuotaUsed today getOk updOk u s =
        (d.quotaUsed, { s with quotaCache := some (u, d.quotaUsed) })) ∧
    (cacheHit s u = false → getOk = true → s.users u = none →
      getQuotaUsed today getOk updOk u s = (0, s)) := by
  refine ⟨?_, ?_, ?_, ?_, ?_, ?_⟩
  · intro n hc
    have hhit : cacheHit s u = true := by simp [cacheHit, hc]
    unfold getQuotaUsed
    rw [hhit, hc]
    simp
  · intro hmiss hg
    unfold getQuotaUsed
    rw [hmiss, hg]
    simp
  · intro d hmiss hg hd hreset hup
    unfold getQuotaUsed
    rw [hmiss, hg]
    simp [hd, hreset, hup]
  · intro d hmiss hg hd hreset hup
    unfold getQuotaUsed
    rw [hmiss, hg]
    simp [hd, hreset, hup]
  · intro d hmiss hg hd hreset
    unfold getQuotaUsed
    rw [hmiss, hg]
    simp [hd, hreset]
  · intro hmiss hg hd
    unfold getQuotaUsed
    rw [hmiss, hg]
    simp [hd]

theorem C7_getQuotaUsed_witness :
    getQuotaUsed "2026-10-12" true true "u1" c7State = (2, c7State) :=
  (C7_getQuotaUsed "2026-10-12" "u1" true true c7State).1 2 rfl

theorem C8_clearAllCache_witness :
    getItem (clearAllCache (setCachedHistory [] "u" [])
      (setCachedHistoryDetail [] "h1" sampleEntry)).1 "ielts_cache_version_u" = none ∧
    getItem (clearAllCache (setCachedHistory [] "u" [])
      (setCachedHistoryDetail [] "h1" sampleEntry)).2 "ielts_cache_version_u" = none :=
  (C8_clearAllCache [] [] "u" "h1" [] sampleEntry).1 "ielts_cache_version_u" rfl

/-! ## Claim C10 -/

theorem filter_absorb (w t0 t : Nat) (l : List Nat) (h : t0 ≤ t) :
    (l.filter (fun x => t0 - x < w)).filter (fun x => t - x < w) =
      l.filter (fun x => t - x < w) := by
  rw [List.filter_filter]
  apply List.filter_congr
  intro x _
  by_cases hw : t - x < w
  · have h0 : t0 - x < w := by omega
    simp [hw, h0]
  · simp [hw]

theorem countW_mono (w : Nat) {t0 t : Nat} (l : List Nat) (h : t0 ≤ t) :
    countW w t l ≤ countW w t0 l := by
  unfold countW
  calc (l.filter (fun x => t - x < w)).length
      = ((l.filter (fun x => t0 - x < w)).filter (fun x => t - x < w)).length := by
        rw [filter_absorb w t0 t l h]
    _ ≤ (l.filter (fun x => t0 - x < w)).length := List.length_filter_le _ _

theorem countW_append (w t : Nat) (l1 l2 : List Nat) :
    countW w t (l1 ++ l2) = countW w t l1 + countW w t l2 := by
  unfold countW
  rw [List.filter_append, List.length_append]

theorem chain_zero {l : List Nat} (h : List.Chain' (· ≤ ·) l) :
    List.Chain (· ≤ ·) 0 l := by
  cases l with
  | nil => exact List.Chain.nil
  | cons a l => exact List.Chain.cons (Nat.zero_le a) h

/-- The limiter run coincides with the reference sliding-window policy: the
    invariant carried is that the stored list and the admitted-call list hold
    the same number of timestamps in every window ending at or after the
    current clock. -/
theorem runCalls_eq_spec (key : String) :
    ∀ (ts : List Nat) (rl : RateLimiter) (A : List Nat) (t0 : Nat),
      List.Chain (· ≤ ·) t0 ts →
      (∀ T, t0 ≤ T →
        countW rl.windowMs T (rl.requests key) = countW rl.windowMs T A) →
      runCalls rl key ts = specRun rl.windowMs rl.maxRequests A ts
  | [], _, _, _, _, _ => rfl
  | t :: ts, rl, A, t0, hch, hinv => by
      cases hch with
      | cons h1 hch' =>
        have hrec : ((rl.requests key).filter (fun x => t - x < rl.windowMs)).length
            = countW rl.windowMs t A := hinv t h1
        simp only [runCalls, RateLimiter.isAllowed, specRun]
        rw [hrec]
        by_cases hle : rl.maxRequests ≤ countW rl.windowMs t A
        · simp only [if_pos hle]
          exact congrArg (List.cons false)
            (runCalls_eq_spec key ts rl A t hch'
              (fun T hT => hinv T (le_trans h1 hT)))
        · simp only [if_neg hle]
          refine congrArg (List.cons true) ?_
          refine runCalls_eq_spec key ts _ (A ++ [t]) t hch' ?_
          intro T hT
          simp only [if_pos rfl, if_true]
          rw [countW_append]
          have habs : countW rl.windowMs T
              ((rl.requests key).filter (fun x => t - x < rl.windowMs)) =
              countW rl.windowMs T (rl.requests key) := by
            unfold countW
            rw [filter_absorb _ t T _ hT]
          rw [habs, hinv T (le_trans h1 hT), countW_append]

/-- The reference policy never accumulates more than max admitted calls in
    the trailing window of any step it processes. -/
theorem specAcc_le (w maxR : Nat) :
    ∀ (p A : List Nat) (t0 t : Nat),
      List.Chain (· ≤ ·) t0 (p ++ [t]) →
      countW w t0 A ≤ maxR →
      countW w t (specAcc w maxR A (p ++ [t])) ≤ maxR
  | [], A, t0, t, hch, hb => by
      cases hch with
      | cons h1 _ =>
        simp only [List.nil_append, specAcc]
        by_cases hle : maxR ≤ countW w t A
        · rw [if_pos hle]
          exact le_trans (countW_mono w A h1) hb
        · rw [if_neg hle]
          have h2 : countW w t A < maxR := Nat.lt_of_not_le hle
          have h3 : countW w t [t] ≤ 1 := List.length_filter_le _ _
          rw [countW_append]
          omega
  | a :: p, A, t0, t, hch, hb => by
      cases hch with
      | cons h1 hch' =>
        simp only [List.cons_append, specAcc]
        by_cases hle : maxR ≤ countW w a A
        · rw [if_pos hle]
          exact specAcc_le w maxR p A a t hch' (le_trans (countW_mono w A h1) hb)
        · rw [if_neg hle]
          refine specAcc_le w maxR p (A ++ [a]) a t hch' ?_
          have h2 : countW w a A < maxR := Nat.lt_of_not_le hle
          have h3 : countW w a [a] ≤ 1 := List.length_filter_le _ _
          rw [countW_append]
          omega

/-- C10: the client-side RateLimiter admits at most maxRequests calls per
    trailing window.  (a) A call arriving when maxRequests admitted calls
    already lie in the trailing window is rejected and leaves the limiter
    unchanged — the rejected attempt is not recorded.  (b) For any
    nondecreasing clock trace from the fresh limiter, the verdicts coincide
    with the reference sliding-window policy, which admits a call exactly
    when fewer than maxRequests previously admitted calls lie in the trailing
    window — so a rejected caller is admitted again only once the oldest
    admitted call has left the window.  (c) Along any such trace the number
    of admitted calls inside the trailing window never exceeds maxRequests. -/
theorem C10_rate_limiter_sliding_window (key : String) (w maxR : Nat)
    (ts p : List Nat) (t : Nat) :
    (∀ (rl : RateLimiter) (now : Nat),
      rl.maxRequests ≤ countW rl.windowMs now (rl.requests key) →
      rl.isAllowed key now = (false, rl)) ∧
    (List.Chain' (· ≤ ·) ts →
      runCalls ⟨w, maxR, fun _ => []⟩ key ts = specRun w maxR [] ts) ∧
    (List.Chain' (· ≤ ·) (p ++ [t]) →
      countW w t (specAcc w maxR [] (p ++ [t])) ≤ maxR) := by
  refine ⟨?_, ?_, ?_⟩
  · intro rl now h
    have h2 : rl.maxRequests ≤
        ((rl.requests key).filter (fun x => decide (now - x < rl.windowMs))).length := h
    simp only [RateLimiter.isAllowed]
    rw [if_pos h2]
  · intro hch
    exact runCalls_eq_spec key ts ⟨w, maxR, fun _ => []⟩ [] 0 (chain_zero hch)
      (fun T _ => rfl)
  · intro hch
    exact specAcc_le w maxR p [] 0 t (chain_zero hch) (Nat.zero_le maxR)

theorem C10_rate_limiter_sliding_window_witness :
    runCalls aiGenerationLimiter "u" [0, 1, 2, 3, 4, 5, 6, 7, 8, 9, 10, 11] =
      specRun 60000 10 [] [0, 1, 2, 3, 4, 5, 6, 7, 8, 9, 10, 11] :=
  (C10_rate_limiter_sliding_window "u" 60000 10
    [0, 1, 2, 3, 4, 5, 6, 7, 8, 9, 10, 11] [] 0).2.1
    (by simp [List.chain'_cons])

/-! ## Claim C6 -/

theorem foldStats_append (st : UserStats) (l : List HistoryEntry)
    (e : HistoryEntry) :
    foldStats st (l ++ [e]) =
      (match e.feedback with
       | some fb => updateUserStats e.taskType fb (foldStats st l)
       | none => foldStats st l) := by
  unfold foldStats
  rw [List.foldl_append]
  simp only [List.foldl_cons, List.foldl_nil]

theorem gradedPairs_append (l : List HistoryEntry) (e : HistoryEntry) :
    gradedPairs (l ++ [e]) = gradedPairs l ++ gradedPairs [e] := by
  unfold gradedPairs
  rw [List.filterMap_append]

theorem sumScores_nil_of_len {g : List (String × ℚ)} (h : g.length = 0) :
    sumScores g = 0 := by
  rw [List.length_eq_zero] at h
  subst h
  rfl

theorem sumScores_append (g h : List (String × ℚ)) :
    sumScores (g ++ h) = sumScores g + sumScores h := by
  simp [sumScores]

/-- The incremental running-average step coincides with the batch average:
    folding one more score into sum-over-count gives sum-over-count again. -/
theorem avg_fold (S s : ℚ) (n : Nat) (hS : n = 0 → S = 0) :
    (S / (n : ℚ) * (n : ℚ) + s) / ((n : ℚ) + 1) = (S + s) / ((n : ℚ) + 1) := by
  rcases Nat.eq_zero_or_pos n with h0 | hpos
  · subst h0
    rw [hS rfl]
    norm_num
  · have hn : (n : ℚ) ≠ 0 := Nat.cast_ne_zero.mpr (Nat.pos_iff_ne_zero.mp hpos)
    rw [div_mul_cancel₀ _ hn]

/-- Cast-adjusted form of the previous lemma, matching the source formula
    (oldAvg × oldCount + newScore) / (oldCount + 1). -/
theorem avg_append (S s : ℚ) (n : Nat) (hS : n = 0 → S = 0) :
    (S / (n : ℚ) * (n : ℚ) + s) / (((n + 1 : Nat)) : ℚ) =
      (S + s) / (((n + 1 : Nat)) : ℚ) := by
  push_cast
  exact avg_fold S s n hS

/-- Characterization of the incremental fold from the zero record: each
    running average is the batch average of the graded scores folded so far
    (with the 0 / 0 = 0 convention of rational division). -/
theorem foldStats_spec (l : List HistoryEntry) :
    (foldStats initialUserStats l).totalAttempts = (gradedPairs l).length ∧
    (foldStats initialUserStats l).task1Attempts = (t1of (gradedPairs l)).length ∧
    (foldStats initialUserStats l).task2Attempts = (t2of (gradedPairs l)).length ∧
    (foldStats initialUserStats l).avgBandScore =
      sumScores (gradedPairs l) / ((gradedPairs l).length : ℚ) ∧
    (foldStats initialUserStats l).avgTask1Score =
      sumScores (t1of (gradedPairs l)) / ((t1of (gradedPairs l)).length : ℚ) ∧
    (foldStats initialUserStats l).avgTask2Score =
      sumScores (t2of (gradedPairs l)) / ((t2of (gradedPairs l)).length : ℚ) := by
  induction l using List.reverseRecOn with
  | nil =>
      refine ⟨rfl, rfl, rfl, ?_, ?_, ?_⟩ <;> simp [foldStats, initialUserStats,
        gradedPairs, t1of, t2of, sumScores]
  | append_singleton l e ih =>
      rw [foldStats_append, gradedPairs_append]
      obtain ⟨h1, h2, h3, h4, h5, h6⟩ := ih
      cases hfb : e.feedback with
      | none =>
          have hg : gradedPairs [e] = [] := by simp [gradedPairs, hfb]
          rw [hg, List.append_nil]
          exact ⟨h1, h2, h3, h4, h5, h6⟩
      | some fb =>
          have hg : gradedPairs [e] = [(e.taskType, fb.bandScore)] := by
            simp [gradedPairs, hfb]
          rw [hg]
          by_cases ht : e.taskType = "Task 1"
          · rw [ht]
            have ht1 : t1of (gradedPairs l ++ [("Task 1", fb.bandScore)]) =
                t1of (gradedPairs l) ++ [("Task 1", fb.bandScore)] := by
              unfold t1of
              rw [List.filter_append]
              simp
            have ht2 : t2of (gradedPairs l ++ [("Task 1", fb.bandScore)]) =
                t2of (gradedPairs l) := by
              unfold t2of
              rw [List.filter_append]
              simp
            unfold updateUserStats
            refine ⟨?_, ?_, ?_, ?_, ?_, ?_⟩
            · simp [h1]
            · simp [ht1, h2]
            · simp [ht2, h3]
            · simp only
              rw [h4, h1, avg_append _ _ _ (fun h0 => sumScores_nil_of_len h0),
                sumScores_append, List.length_append]
              simp [sumScores]
            · simp only [if_pos rfl, if_true]
              rw [h5, h2, avg_fold _ _ _ (fun h0 => sumScores_nil_of_len h0),
                ht1, sumScores_append, List.length_append]
              push_cast
              simp [sumScores]
            · simp only [if_pos rfl, if_true]
              rw [h6, ht2]
          · have ht1 : t1of (gradedPairs l ++ [(e.taskType, fb.bandScore)]) =
                t1of (gradedPairs l) := by
              unfold t1of
              rw [List.filter_append]
              simp [ht]
            have ht2 : t2of (gradedPairs l ++ [(e.taskType, fb.bandScore)]) =
                t2of (gradedPairs l) ++ [(e.taskType, fb.bandScore)] := by
              unfold t2of
              rw [List.filter_append]
              simp [ht]
            unfold updateUserStats
            refine ⟨?_, ?_, ?_, ?_, ?_, ?_⟩
            · simp [h1]
            · simp [ht, ht1, h2]
            · simp [ht, ht2, h3]
            · simp only
              rw [h4, h1, avg_append _ _ _ (fun h0 => sumScores_nil_of_len h0),
                sumScores_append, List.length_append]
              simp [sumScores]
            · simp only [if_neg ht, if_false]
              rw [h5, ht1]
            · simp only [if_neg ht, if_false]
              rw [h6, h3, avg_fold _ _ _ (fun h0 => sumScores_nil_of_len h0),
                ht2, sumScores_append, List.length_append]
              push_cast
              simp [sumScores]

/-- Characterization of the recalculation accumulator: plain counts and sums
    of the graded scores. -/
theorem recalcAcc_spec (l : List HistoryEntry) :
    (l.foldl recalcStep ⟨0, 0, 0, 0, 0, 0, []⟩).totalAttempts =
      (gradedPairs l).length ∧
    (l.foldl recalcStep ⟨0, 0, 0, 0, 0, 0, []⟩).totalScore =
      sumScores (gradedPairs l) ∧
    (l.foldl recalcStep ⟨0, 0, 0, 0, 0, 0, []⟩).task1Attempts =
      (t1of (gradedPairs l)).length ∧
    (l.foldl recalcStep ⟨0, 0, 0, 0, 0, 0, []⟩).task2Attempts =
      (t2of (gradedPairs l)).length ∧
    (l.foldl recalcStep ⟨0, 0, 0, 0, 0, 0, []⟩).task1TotalScore =
      sumScores (t1of (gradedPairs l)) ∧
    (l.foldl recalcStep ⟨0, 0, 0, 0, 0, 0, []⟩).task2TotalScore =
      sumScores (t2of (gradedPairs l)) := by
  induction l using List.reverseRecOn with
  | nil =>
      refine ⟨rfl, rfl, rfl, rfl, rfl, rfl⟩
  | append_singleton l e ih =>
      rw [List.foldl_append, gradedPairs_append]
      simp only [List.foldl_cons, List.foldl_nil]
      obtain ⟨h1, h2, h3, h4, h5, h6⟩ := ih
      cases hfb : e.feedback with
      | none =>
          have hg : gradedPairs [e] = [] := by simp [gradedPairs, hfb]
          rw [hg, List.append_nil]
          simp only [recalcStep, hfb]
          exact ⟨h1, h2, h3, h4, h5, h6⟩
      | some fb =>
          have hg : gradedPairs [e] = [(e.taskType, fb.bandScore)] := by
            simp [gradedPairs, hfb]
          rw [hg]
          simp only [recalcStep, hfb]
          by_cases ht : e.taskType = "Task 1"
          · rw [ht]
            have ht1 : t1of (gradedPairs l ++ [("Task 1", fb.bandScore)]) =
                t1of (gradedPairs l) ++ [("Task 1", fb.bandScore)] := by
              unfold t1of
              rw [List.filter_append]
              simp
            have ht2 : t2of (gradedPairs l ++ [("Task 1", fb.bandScore)]) =
                t2of (gradedPairs l) := by
              unfold t2of
              rw [List.filter_append]
              simp
            refine ⟨by simp [h1], ?_, ?_, ?_, ?_, ?_⟩
            · rw [sumScores_append, h2]
              simp [sumScores]
            · simp [ht1, h3]
            · simp [ht2, h4]
            · rw [ht1, sumScores_append, h5]
              simp [sumScores]
            · simp [ht2, h6]
          · have ht1 : t1of (gradedPairs l ++ [(e.taskType, fb.bandScore)]) =
                t1of (gradedPairs l) := by
              unfold t1of
              rw [List.filter_append]
              simp [ht]
            have ht2 : t2of (gradedPairs l ++ [(e.taskType, fb.bandScore)]) =
                t2of (gradedPairs l) ++ [(e.taskType, fb.bandScore)] := by
              unfold t2of
              rw [List.filter_append]
              simp [ht]
            refine ⟨by simp [h1], ?_, ?_, ?_, ?_, ?_⟩
            · rw [sumScores_append, h2]
              simp [sumScores]
            · simp [ht, ht1, h3]
            · simp [ht, ht2, h4]
            · simp [ht, ht1, h5]
            · rw [ht2, sumScores_append, h6]
              simp [ht, sumScores]

/-- The guarded batch averages of recalculateUserStats equal the unguarded
    sum-over-count form. -/
theorem recalc_avg_collapse (S : ℚ) (n : Nat) (hS : n = 0 → S = 0) :
    (if 0 < n then S / (n : ℚ) else 0) = S / (n : ℚ) := by
  rcases Nat.eq_zero_or_pos n with h0 | hpos
  · subst h0
    rw [hS rfl]
    norm_num
  · rw [if_pos hpos]

/-- The fields of the full rebuild, in the same normal form. -/
theorem recalcUserStats_fields (l : List HistoryEntry) :
    (recalcUserStats l).totalAttempts = (gradedPairs l).length ∧
    (recalcUserStats l).task1Attempts = (t1of (gradedPairs l)).length ∧
    (recalcUserStats l).task2Attempts = (t2of (gradedPairs l)).length ∧
    (recalcUserStats l).avgBandScore =
      sumScores (gradedPairs l) / ((gradedPairs l).length : ℚ) ∧
    (recalcUserStats l).avgTask1Score =
      sumScores (t1of (gradedPairs l)) / ((t1of (gradedPairs l)).length : ℚ) ∧
    (recalcUserStats l).avgTask2Score =
      sumScores (t2of (gradedPairs l)) / ((t2of (gradedPairs l)).length : ℚ) := by
  obtain ⟨r1, r2, r3, r4, r5, r6⟩ := recalcAcc_spec l
  unfold recalcUserStats
  simp only []
  refine ⟨r1, r3, r4, ?_, ?_, ?_⟩
  · rw [r1, r2, recalc_avg_collapse _ _ (fun h0 => sumScores_nil_of_len h0)]
  · rw [r3, r5, recalc_avg_collapse _ _ (fun h0 => sumScores_nil_of_len h0)]
  · rw [r4, r6, recalc_avg_collapse _ _ (fun h0 => sumScores_nil_of_len h0)]

/-- C6: the full rebuild recalculateUserStats produces exactly the same
    attempt counts and running averages (overall and per task type) as
    folding the graded entries one at a time through updateUserStats from the
    zeroed record, in any fold order. -/
theorem C6_recalc_matches_incremental (l l' : List HistoryEntry)
    (hperm : l.Perm l') :
    StatsAgree (recalcUserStats l) (foldStats initialUserStats l') := by
  have hp : (gradedPairs l).Perm (gradedPairs l') := hperm.filterMap _
  have hlen : (gradedPairs l).length = (gradedPairs l').length := hp.length_eq
  have hsum : sumScores (gradedPairs l) = sumScores (gradedPairs l') :=
    (hp.map _).sum_eq
  have hp1 : (t1of (gradedPairs l)).Perm (t1of (gradedPairs l')) := hp.filter _
  have hp2 : (t2of (gradedPairs l)).Perm (t2of (gradedPairs l')) := hp.filter _
  have hlen1 : (t1of (gradedPairs l)).length = (t1of (gradedPairs l')).length :=
    hp1.length_eq
  have hlen2 : (t2of (gradedPairs l)).length = (t2of (gradedPairs l')).length :=
    hp2.length_eq
  have hsum1 : sumScores (t1of (gradedPairs l)) = sumScores (t1of (gradedPairs l')) :=
    (hp1.map _).sum_eq
  have hsum2 : sumScores (t2of (gradedPairs l)) = sumScores (t2of (gradedPairs l')) :=
    (hp2.map _).sum_eq
  obtain ⟨f1, f2, f3, f4, f5, f6⟩ := foldStats_spec l'
  obtain ⟨g1, g2, g3, g4, g5, g6⟩ := recalcUserStats_fields l
  exact ⟨by rw [g1, f1, hlen], by rw [g4, f4, hlen, hsum],
    by rw [g2, f2, hlen1], by rw [g3, f3, hlen2],
    by rw [g5, f5, hlen1, hsum1], by rw [g6, f6, hlen2, hsum2]⟩

theorem C6_recalc_matches_incremental_witness :
    StatsAgree (recalcUserStats [entryB, entryA])
      (foldStats initialUserStats [entryA, entryB]) :=
  C6_recalc_matches_incremental [entryB, entryA] [entryA, entryB]
    (List.Perm.swap entryA entryB [])

/-! ## Base64 round trip -/

theorem b64_inv : ∀ s, s < 64 → b64index (b64char s) = some s := by decide

theorem b64char_ne_61 (s : Nat) : b64char s ≠ 61 := by
  unfold b64char
  split_ifs <;> omega

theorem b64char_not_ws (s : Nat) : isB64Ws (b64char s) = false := by
  unfold b64char isB64Ws
  split_ifs <;> simp <;> omega

theorem bytesToSex_lt : ∀ l, (∀ c ∈ l, c < 256) → ∀ s ∈ bytesToSex l, s < 64 := by
  intro l
  induction l using bytesToSex.induct with
  | case1 => intro _ s hs; simp [bytesToSex] at hs
  | case2 b0 =>
      intro hb s hs
      have h0 := hb b0 (by simp)
      simp [bytesToSex] at hs
      rcases hs with h | h <;> omega
  | case3 b0 b1 =>
      intro hb s hs
      have h0 := hb b0 (by simp)
      have h1 := hb b1 (by simp)
      simp [bytesToSex] at hs
      rcases hs with h | h | h <;> omega
  | case4 b0 b1 b2 rest ih =>
      intro hb s hs
      have h0 := hb b0 (by simp)
      have h1 := hb b1 (by simp)
      have h2 := hb b2 (by simp)
      simp only [bytesToSex, List.mem_cons] at hs
      rcases hs with h | h | h | h | h
      · omega
      · omega
      · omega
      · omega
      · exact ih (fun c hc => hb c (by simp [hc])) s h

theorem sex_bytes_inv : ∀ l, (∀ c ∈ l, c < 256) → sexToBytes (bytesToSex l) = l := by
  intro l
  induction l using bytesToSex.induct with
  | case1 => intro _; rfl
  | case2 b0 =>
      intro hb
      have h0 := hb b0 (by simp)
      simp only [bytesToSex, sexToBytes, List.cons.injEq, and_true]
      omega
  | case3 b0 b1 =>
      intro hb
      have h0 := hb b0 (by simp)
      have h1 := hb b1 (by simp)
      simp only [bytesToSex, sexToBytes, List.cons.injEq, and_true]
      omega
  | case4 b0 b1 b2 rest ih =>
      intro hb
      have h0 := hb b0 (by simp)
      have h1 := hb b1 (by simp)
      have h2 := hb b2 (by simp)
      simp only [bytesToSex, sexToBytes, List.cons.injEq]
      rw [ih (fun c hc => hb c (by simp [hc]))]
      refine ⟨by omega, by omega, by omega, rfl⟩

theorem bytesToSex_len_mod : ∀ l, (bytesToSex l).length % 4 ≠ 1 := by
  intro l
  induction l using bytesToSex.induct with
  | case1 => simp [bytesToSex]
  | case2 b0 => simp [bytesToSex]
  | case3 b0 b1 => simp [bytesToSex]
  | case4 b0 b1 b2 rest ih =>
      simp only [bytesToSex, List.length_cons]
      omega

theorem bytesToSex_eq_nil : ∀ l, bytesToSex l = [] → l = [] := by
  intro l
  induction l using bytesToSex.induct <;> intro h <;>
    simp [bytesToSex] at h <;> rfl

theorem mapM_map_b64 : ∀ sx : List Nat, (∀ s ∈ sx, s < 64) →
    (sx.map b64char).mapM b64index = some sx := by
  intro sx
  induction sx with
  | nil => intro _; rfl
  | cons s t ih =>
      intro h
      have hs : b64index (b64char s) = some s := b64_inv s (h s (by simp))
      simp only [List.map_cons, List.mapM_cons, hs]
      rw [ih (fun x hx => h x (by simp [hx]))]
      rfl

theorem padFor_add3 (n : Nat) : padFor (n + 3) = padFor n := by
  unfold padFor
  rw [Nat.add_mod_right]

theorem btoa_cons3 (b0 b1 b2 : Nat) (rest : List Nat) :
    btoa (b0 :: b1 :: b2 :: rest) =
      [b64char (b0 / 4), b64char (b0 % 4 * 16 + b1 / 16),
       b64char (b1 % 16 * 4 + b2 / 64), b64char (b2 % 64)] ++ btoa rest := by
  unfold btoa
  simp only [bytesToSex, List.map_cons, List.length_cons]
  rw [show rest.length + 1 + 1 + 1 = rest.length + 3 from rfl, padFor_add3]
  simp

theorem btoa_len_mod : ∀ l, (btoa l).length % 4 = 0 := by
  intro l
  induction l using bytesToSex.induct with
  | case1 => rfl
  | case2 b0 => simp [btoa, bytesToSex, padFor]
  | case3 b0 b1 => simp [btoa, bytesToSex, padFor]
  | case4 b0 b1 b2 rest ih =>
      rw [btoa_cons3]
      simp only [List.length_append, List.length_cons, List.length_nil]
      omega

theorem mem_btoa (l : List Nat) :
    ∀ x ∈ btoa l, x = 61 ∨ ∃ s, x = b64char s := by
  intro x hx
  unfold btoa at hx
  rw [List.mem_append] at hx
  rcases hx with hx | hx
  · rw [List.mem_map] at hx
    obtain ⟨s, _, hs⟩ := hx
    exact Or.inr ⟨s, hs.symm⟩
  · left
    unfold padFor at hx
    split at hx
    · rcases List.mem_pair.mp hx with h | h <;> exact h
    · exact List.mem_singleton.mp hx
    · exact absurd hx (List.not_mem_nil x)

theorem btoa_no_ws (l : List Nat) :
    (btoa l).filter (fun c => !isB64Ws c) = btoa l := by
  rw [List.filter_eq_self]
  intro x hx
  rcases mem_btoa l x hx with h | ⟨s, hs⟩
  · subst h; rfl
  · subst hs
    rw [b64char_not_ws]
    rfl

theorem stripPad_of_ne61 (d : List Nat) (h4 : d.length % 4 = 0)
    (hlast : ∀ x, d.getLast? = some x → x ≠ 61) : stripPad d = d := by
  unfold stripPad
  rw [if_pos h4]
  have : ¬(d.getLast? = some 61) := by
    intro h
    exact hlast 61 h rfl
  rw [if_neg this]

theorem stripPad_one (m : List Nat) (h4 : (m ++ [61]).length % 4 = 0)
    (hlast : ∀ x, m.getLast? = some x → x ≠ 61) :
    stripPad (m ++ [61]) = m := by
  unfold stripPad
  rw [if_pos h4, List.getLast?_concat, if_pos rfl, List.dropLast_concat]
  have : ¬(m.getLast? = some 61) := by
    intro h
    exact hlast 61 h rfl
  rw [if_neg this]

theorem stripPad_two (m : List Nat) (h4 : (m ++ [61, 61]).length % 4 = 0) :
    stripPad (m ++ [61, 61]) = m := by
  unfold stripPad
  have he : m ++ [61, 61] = (m ++ [61]) ++ [61] := by simp
  rw [if_pos h4, he, List.getLast?_concat, if_pos rfl, List.dropLast_concat,
    List.getLast?_concat, if_pos rfl, List.dropLast_concat]

theorem map_b64_last_ne61 (xs : List Nat) :
    ∀ x, (xs.map b64char).getLast? = some x → x ≠ 61 := by
  intro x hx
  rw [← List.head?_reverse, ← List.map_reverse, List.head?_map] at hx
  rcases h : xs.reverse.head? with _ | s
  · rw [h] at hx; cases hx
  · rw [h] at hx
    cases hx
    exact b64char_ne_61 s

/-- atob inverts btoa on byte lists. -/
theorem atob_btoa (l : List Nat) (h : ∀ c ∈ l, c < 256) :
    atob (btoa l) = some l := by
  unfold atob
  simp only []
  rw [btoa_no_ws]
  have hmod3 : l.length % 3 < 3 := Nat.mod_lt _ (by norm_num)
  have hstrip : stripPad (btoa l) = (bytesToSex l).map b64char := by
    unfold btoa
    rcases h3 : l.length % 3 with _ | _ | n
    · rw [show padFor l.length = [] by unfold padFor; rw [h3]]
      rw [List.append_nil]
      exact stripPad_of_ne61 _ (by
        have := btoa_len_mod l
        unfold btoa at this
        rw [show padFor l.length = [] by unfold padFor; rw [h3],
          List.append_nil] at this
        exact this) (map_b64_last_ne61 _)
    · rw [show padFor l.length = [61, 61] by unfold padFor; rw [h3]]
      exact stripPad_two _ (by
        have := btoa_len_mod l
        unfold btoa at this
        rw [show padFor l.length = [61, 61] by unfold padFor; rw [h3]] at this
        exact this)
    · have hn : n = 0 := by omega
      subst hn
      rw [show padFor l.length = [61] by unfold padFor; rw [h3]]
      exact stripPad_one _ (by
        have := btoa_len_mod l
        unfold btoa at this
        rw [show padFor l.length = [61] by unfold padFor; rw [h3]] at this
        exact this) (map_b64_last_ne61 _)
  rw [hstrip]
  have hlen : ¬(((bytesToSex l).map b64char).length % 4 = 1) := by
    rw [List.length_map]
    exact bytesToSex_len_mod l
  rw [if_neg hlen]
  rw [mapM_map_b64 _ (bytesToSex_lt l h)]
  show some (sexToBytes (bytesToSex l)) = some l
  rw [sex_bytes_inv l h]

/-! ## The xor pass -/

theorem jsXor_small (a b : Nat) (ha : a < 2 ^ 31) (hb : b < 2 ^ 31) :
    jsXor a b = (Nat.xor a b : Int) := by
  unfold jsXor toU32
  have hta : (((a : Int)) % 2 ^ 32).toNat = a := by omega
  have htb : (((b : Int)) % 2 ^ 32).toNat = b := by omega
  rw [hta, htb]
  have hx : Nat.xor a b < 2 ^ 31 := Nat.xor_lt_two_pow ha hb
  rw [if_pos hx]

theorem toU16_small (n : Nat) (h : n < 2 ^ 16) : toU16 (n : Int) = n := by
  unfold toU16
  omega

/-- With a non-negative key hash every per-position key byte is the plain
    remainder, and the xor pass is an involution on byte-valued strings. -/
theorem xorFrom_round (h : Int) (hh : 0 ≤ h) :
    ∀ (i : Nat) (data : JSStr), (∀ c ∈ data, c ≤ 255) →
      (∀ c ∈ xorFrom h i data, c < 256) ∧
      xorFrom h i (xorFrom h i data) = data := by
  intro i data
  induction data generalizing i with
  | nil => intro _; exact ⟨by simp [xorFrom], rfl⟩
  | cons c cs ih =>
      intro hc
      have hcl : c ≤ 255 := hc c (by simp)
      have hknn : (0 : Int) ≤ h + i := by positivity
      have hkey : (h + (i : Int)).tmod 256 = ((h + i) % 256 : Int) :=
        Int.tmod_eq_emod hknn (by norm_num)
      set kI : Int := (h + (i : Int)) % 256 with hkI
      have hk0 : 0 ≤ kI := Int.emod_nonneg _ (by norm_num)
      have hk1 : kI < 256 := Int.emod_lt_of_pos _ (by norm_num)
      have hknat : kI = ((kI.toNat : Nat) : Int) := (Int.toNat_of_nonneg hk0).symm
      set k : Nat := kI.toNat with hkdef
      have hklt : k < 256 := by omega
      have hxlt : Nat.xor c k < 256 :=
        Nat.xor_lt_two_pow (n := 8) (x := c) (y := k) (by omega) (by omega)
      have hx16 : Nat.xor c k < 2 ^ 16 := lt_trans hxlt (by norm_num)
      have henc : toU16 (jsXor (c : Int) ((h + (i : Int)).tmod 256)) = Nat.xor c k := by
        rw [hkey, hknat, jsXor_small c k (by omega) (by omega)]
        exact toU16_small _ hx16
      have hback : Nat.xor (Nat.xor c k) k = c := by
        show c ^^^ k ^^^ k = c
        rw [Nat.xor_assoc, Nat.xor_self, Nat.xor_zero]
      have hdec : toU16 (jsXor ((Nat.xor c k : Nat) : Int)
          ((h + (i : Int)).tmod 256)) = c := by
        rw [hkey, hknat, jsXor_small _ k (by omega) (by omega), hback]
        exact toU16_small _ (by omega)
      obtain ⟨ihlt, ihrt⟩ := ih (i + 1) (fun x hx => hc x (by simp [hx]))
      constructor
      · intro x hx
        simp only [xorFrom, List.mem_cons, henc] at hx
        rcases hx with hx | hx
        · omega
        · exact ihlt x hx
      · simp only [xorFrom, henc, hdec]
        rw [ihrt]

/-! ## Claim C9 -/

set_option maxRecDepth 4000 in
/-- C9 as stated is false on the code: for a key with a negative JS string
    hash the xored code units exceed 255, btoa throws, and encryptData falls
    back to returning the plaintext; decryptData then base64-decodes that
    plaintext and xors it, producing garbage instead of the original. -/
theorem C9_counterexample :
    (∀ c ∈ c9Data, c ≤ 255) ∧ c9Key ≠ [] ∧
    decryptData (encryptData c9Data c9Key) c9Key ≠ c9Data := by
  refine ⟨by decide, by decide, by decide⟩

/-- C9 amended: the XOR/base64 cipher round-trips — decryptData inverts
    encryptData — for every plaintext whose code units are at most 255 and
    every non-empty key whose JS string hash is non-negative (a negative hash
    makes encryptData fall back to the unencrypted plaintext, which need not
    round-trip). -/
theorem C9_roundtrip_amended (data key : JSStr)
    (hdata : ∀ c ∈ data, c ≤ 255) (hkey : key ≠ [])
    (hhash : 0 ≤ jsHash key) :
    decryptData (encryptData data key) key = data := by
  obtain ⟨hlt, hrt⟩ := xorFrom_round (jsHash key) hhash 0 data hdata
  have hall : (xorFrom (jsHash key) 0 data).all (· < 256) = true :=
    List.all_eq_true.mpr (fun x hx => by simpa using hlt x hx)
  unfold encryptData
  rw [if_pos hall]
  unfold decryptData
  rw [atob_btoa _ hlt]
  show xorFrom (jsHash key) 0 (xorFrom (jsHash key) 0 data) = data
  exact hrt

set_option maxRecDepth 4000 in
theorem C9_roundtrip_amended_witness :
    decryptData (encryptData c9Data c9zKey) c9zKey = c9Data :=
  C9_roundtrip_amended c9Data c9zKey (by decide) (by decide) (by decide)

/-! ## Claim C5 -/

theorem xorFrom_length (h : Int) : ∀ (i : Nat) (data : JSStr),
    (xorFrom h i data).length = data.length := by
  intro i data
  induction data generalizing i with
  | nil => rfl
  | cons c cs ih => simp [xorFrom, ih]

theorem isEmpty_false_of_ne {l : List Nat} (h : l ≠ []) : l.isEmpty = false := by
  cases hI : l.isEmpty
  · rfl
  · exact absurd (List.isEmpty_iff.mp hI) h

theorem btoa_ne_nil (l : List Nat) (h : l ≠ []) : btoa l ≠ [] := by
  intro hb
  unfold btoa at hb
  rcases List.append_eq_nil.mp hb with ⟨hm, _⟩
  rcases List.map_eq_nil.mp hm with hs
  exact h (bytesToSex_eq_nil l hs)

theorem b64char_in_set (s : Nat) :
    ((65 ≤ b64char s && b64char s ≤ 90) || (97 ≤ b64char s && b64char s ≤ 122) ||
      (48 ≤ b64char s && b64char s ≤ 57) || b64char s = 43 || b64char s = 47 ||
      b64char s = 61) = true := by
  unfold b64char
  split_ifs <;> simp <;> omega

theorem base64Like_btoa (l : List Nat) (h : l ≠ []) :
    base64Like (btoa l) = true := by
  unfold base64Like
  rw [isEmpty_false_of_ne (btoa_ne_nil l h)]
  simp only [Bool.not_false, Bool.true_and]
  rw [List.all_eq_true]
  intro x hx
  rcases mem_btoa l x hx with h61 | ⟨s, hs⟩
  · subst h61; rfl
  · subst hs
    exact b64char_in_set s

theorem base64Like_no_ws {d : List Nat} (h : base64Like d = true) :
    ∀ c ∈ d, isB64Ws c = false := by
  unfold base64Like at h
  rw [Bool.and_eq_true, List.all_eq_true] at h
  intro c hc
  have hset := h.2 c hc
  simp only [Bool.or_eq_true, Bool.and_eq_true, decide_eq_true_eq] at hset
  unfold isB64Ws
  simp only [Bool.or_eq_false_iff, decide_eq_false_iff_not]
  omega

theorem base64Like_ne_nil {d : List Nat} (h : base64Like d = true) : d ≠ [] := by
  unfold base64Like at h
  rw [Bool.and_eq_true] at h
  intro hnil
  subst hnil
  cases h.1

theorem mapM_some_length :
    ∀ (l sx : List Nat), l.mapM b64index = some sx → sx.length = l.length := by
  intro l
  induction l with
  | nil =>
      intro sx h
      cases h
      rfl
  | cons a t ih =>
      intro sx h
      rw [List.mapM_cons] at h
      cases hfa : b64index a with
      | none => rw [hfa] at h; cases h
      | some b =>
          rw [hfa] at h
          cases hmt : t.mapM b64index with
          | none => rw [hmt] at h; cases h
          | some bs =>
              rw [hmt] at h
              cases h
              simp [ih bs hmt]

theorem sexToBytes_ne_nil : ∀ l : List Nat, 2 ≤ l.length → sexToBytes l ≠ [] := by
  intro l
  induction l using sexToBytes.induct <;> intro hlen <;> simp [sexToBytes] at hlen ⊢

theorem stripPad_length (d : List Nat) :
    d.length - 2 ≤ (stripPad d).length ∧ (stripPad d).length ≤ d.length := by
  unfold stripPad
  split_ifs <;> simp [List.length_dropLast] <;> omega

theorem stripPad_of_not4 (d : List Nat) (h : ¬(d.length % 4 = 0)) :
    stripPad d = d := by
  unfold stripPad
  rw [if_neg h]

/-- A successful atob on a non-empty whitespace-free input yields a non-empty
    byte list. -/
theorem atob_some_ne_nil (d bs : List Nat) (hne : d ≠ [])
    (hnw : ∀ c ∈ d, isB64Ws c = false) (h : atob d = some bs) : bs ≠ [] := by
  unfold atob at h
  simp only [] at h
  rw [List.filter_eq_self.mpr (fun a ha => by rw [hnw a ha]; rfl)] at h
  by_cases h1 : (stripPad d).length % 4 = 1
  · rw [if_pos h1] at h
    cases h
  · rw [if_neg h1] at h
    cases hm : (stripPad d).mapM b64index with
    | none => rw [hm] at h; cases h
    | some sx =>
        rw [hm] at h
        have hsx : sx.length = (stripPad d).length := mapM_some_length _ _ hm
        have hd0 : d.length ≠ 0 := fun h0 => hne (List.length_eq_zero.mp h0)
        have hslen : 2 ≤ (stripPad d).length := by
          obtain ⟨hs1, hs2⟩ := stripPad_length d
          by_cases h4 : d.length % 4 = 0
          · omega
          · rw [stripPad_of_not4 d h4] at h1 ⊢
            omega
        cases h
        exact sexToBytes_ne_nil sx (by omega)

/-- Reading a stored raw string through secureGetItem exposes the decrypt
    decision chain. -/
theorem secureGetItem_str (st : Storage) (k : String) (uid v : JSStr)
    (h : getItem st k = some (.str v)) :
    secureGetItem st k uid =
      if v.isEmpty = true then none
      else if base64Like v = true then some (decryptData v uid) else some v := by
  unfold secureGetItem
  rw [h]

theorem xorFrom_ne_nil (h : Int) (i : Nat) {data : JSStr} (hd : data ≠ []) :
    xorFrom h i data ≠ [] := by
  intro hx
  have hl := xorFrom_length h i data
  rw [hx] at hl
  exact hd (List.length_eq_zero.mp hl.symm)

/-- After setUserApiKey with a non-empty byte-valued credential, the
    retrieved credential is present and non-empty — whichever of the
    encrypted, fallback-plaintext, or spurious-decrypt read paths is taken. -/
theorem getUserApiKey_after_set (st : Storage) (u : String) (k : JSStr)
    (hk : k ≠ []) (hkc : ∀ c ∈ k, c ≤ 255) :
    ∃ v, getUserApiKey (setUserApiKey st u k) u = some v ∧ v ≠ [] := by
  unfold getUserApiKey setUserApiKey secureSetItem
  rw [secureGetItem_str _ _ _ (encryptData k (u.data.map Char.toNat))
    (getItem_setItem_self st (apiKeyKey u) _)]
  have hxk : ∀ i, xorFrom (jsHash (u.data.map Char.toNat)) i k ≠ [] := by
    intro i hx
    have := xorFrom_length (jsHash (u.data.map Char.toNat)) i k
    rw [hx] at this
    exact hk (List.length_eq_zero.mp (by simpa using this.symm))
  unfold encryptData
  by_cases hall : ((xorFrom (jsHash (u.data.map Char.toNat)) 0 k).all
      (fun x => decide (x < 256))) = true
  · rw [if_pos hall]
    have hbne : btoa (xorFrom (jsHash (u.data.map Char.toNat)) 0 k) ≠ [] :=
      btoa_ne_nil _ (hxk 0)
    rw [isEmpty_false_of_ne hbne, if_neg (by simp),
      if_pos (base64Like_btoa _ (hxk 0))]
    refine ⟨_, rfl, ?_⟩
    unfold decryptData
    rw [atob_btoa _ (fun c hc => by
      have := List.all_eq_true.mp hall c hc
      simpa using this)]
    show xorFrom (jsHash (u.data.map Char.toNat)) 0
      (xorFrom (jsHash (u.data.map Char.toNat)) 0 k) ≠ []
    exact xorFrom_ne_nil _ _ (hxk 0)
  · rw [if_neg hall, isEmpty_false_of_ne hk, if_neg (by simp)]
    by_cases hb : base64Like k = true
    · rw [if_pos hb]
      refine ⟨_, rfl, ?_⟩
      unfold decryptData
      cases hat : atob k with
      | none => exact hk
      | some bs =>
          have hbs : bs ≠ [] :=
            atob_some_ne_nil k bs hk (base64Like_no_ws hb) hat
          show xorFrom (jsHash (u.data.map Char.toNat)) 0 bs ≠ []
          exact xorFrom_ne_nil _ _ hbs
    · rw [if_neg hb]
      exact ⟨k, rfl, hk⟩

/-- C5: the routing adapter re-evaluates transport selection on every call:
    with the authenticated user holding no stored credential the call routes
    to the proxied transport, and after storing a (non-empty, byte-valued)
    credential — with no other state change — the very next call routes to
    the direct transport; no re-authentication or reload is involved, the
    decision reads only the current localStorage. -/
theorem C5_routing_per_call (s : RouteState) (u : String) (k : JSStr)
    (hcur : s.currentUser = some u)
    (hnone : getItem s.localStore (apiKeyKey u) = none)
    (hk : k ≠ []) (hkc : ∀ c ∈ k, c ≤ 255) :
    getService s = .proxied ∧
    getService { s with localStore := setUserApiKey s.localStore u k } =
      .direct := by
  constructor
  · unfold getService
    rw [hcur]
    have hno : isUsingCustomApiKey s.localStore u = false := by
      unfold isUsingCustomApiKey getUserApiKey secureGetItem
      rw [hnone]
    show (if isUsingCustomApiKey s.localStore u = true then Service.direct
      else Service.proxied) = Service.proxied
    rw [hno]
    rfl
  · unfold getService
    rw [show ({ s with localStore := setUserApiKey s.localStore u k } :
        RouteState).currentUser = some u from hcur]
    obtain ⟨v, hv, hvne⟩ := getUserApiKey_after_set s.localStore u k hk hkc
    have hyes : isUsingCustomApiKey (setUserApiKey s.localStore u k) u = true := by
      unfold isUsingCustomApiKey
      rw [hv]
      show (!v.isEmpty) = true
      rw [isEmpty_false_of_ne hvne]
      rfl
    show (if isUsingCustomApiKey (setUserApiKey s.localStore u k) u = true
      then Service.direct else Service.proxied) = Service.direct
    rw [hyes]
    rfl

set_option maxRecDepth 4000 in
theorem C5_routing_per_call_witness :
    getService c5State = .proxied ∧
    getService { c5State with
      localStore := setUserApiKey c5State.localStore "u1" [65, 66, 67] } =
      .direct :=
  C5_routing_per_call c5State "u1" [65, 66, 67] rfl rfl (by decide) (by decide)

end IeltsApp

